import Mathlib

/-!
# kindle-converter: the attachment pipeline of `function/main.go`

A shallow embedding of the Lambda handler of `function/main.go` and of its
helpers (`contains`, `emailSize`, `emailOptimizer`, `handleError`,
`handleRequest`), followed by theorems about them.

Conventions of the embedding

* Go `int64` values are `Int`; the one `int64` addition of the program (in
  `emailSize` and in the fit test of `emailOptimizer`) wraps around through
  `add64`.
* Go `string` is `String`, `[]T` is `List T`, `error` is `Option Error`
  (`none` is `nil`).
* The fixed array `[10][]FileToSend` is a list of bins that is created with ten
  entries and never changes its length.
* Everything outside the repository (the sort of package `sort`,
  `strings.ToLower`, DynamoDB, S3, SES, the file system, `ebook-convert`) is a
  field of `World`.  The calls that act on the outside are recorded, in order,
  in a log of `Effect`s, and the outcome of such a call may depend on the log
  so far.
-/

namespace KindleConverter

/-! ## Constants -/

/-- The constant `Sender`. -/
def Sender : String := "conversion@noreply.kindle.vangel.io"

/-- The constant `BaseReceiveDomain`. -/
def BaseReceiveDomain : String := "@kindle.vangel.io"

/-- The constant `TableName`. -/
def TableName : String := "KindleConverter"

/-- The constant `Folder`. -/
def Folder : String := "/tmp"

/-- The constant `MaxEmailSize = int64(10485760 * .6)`.  Go evaluates the
untyped constant product exactly, and the conversion to `int64` is accepted by
the compiler only because the product is an integer: `10485760 * 6 / 10`. -/
def MaxEmailSize : Int := 10485760 * 6 / 10

/-! ## Machine integers -/

/-- Reduction of an integer into the range of `int64` (two's complement). -/
def wrap64 (x : Int) : Int := (x + 2 ^ 63) % 2 ^ 64 - 2 ^ 63

/-- Addition of two `int64` values, as Go performs it (wrap-around). -/
def add64 (a b : Int) : Int := wrap64 (a + b)

/-- The values an `int64` can hold. -/
def IsInt64 (x : Int) : Prop := -(2 ^ 63) ≤ x ∧ x < 2 ^ 63

instance (x : Int) : Decidable (IsInt64 x) := by
  unfold IsInt64; infer_instance

/-! ## Data model -/

/-- The struct `RecipientResult`. -/
structure RecipientResult where
  RecipientEmail : String
  ApprovedEmails : List String
  DestinationEmails : List String
deriving DecidableEq, Repr

/-- The struct `FileToSend`. -/
structure FileToSend where
  LocalFilename : String
  DisplayFilename : String
  FileSize : Int
deriving DecidableEq, Repr

/-- The function `getAlreadySupportedFileTypes`. -/
def getAlreadySupportedFileTypes : List String :=
  [".doc", ".docx", ".rtf", ".htm", ".html", ".txt", ".mobi", ".azw", ".azw3", ".azw4",
   ".pdf", ".jpg", ".jpeg", ".gif", ".bmp", ".png"]

/-- The function `getSupportedConversionFileTypes`. -/
def getSupportedConversionFileTypes : List String :=
  [".azw", ".azw3", ".azw4", ".cbz", ".cbr", ".cb7", ".cbc", ".chm", ".djvu", ".docx",
   ".epub", ".fb2", ".fbz", ".html", ".htmlz", ".lit", ".lrf", ".mobi", ".odt", ".pdf",
   ".prc", ".pdb", ".pml", ".rb", ".rtf", ".snb", ".tcr", ".txt", ".txtz"]

/-- The function `contains`: linear search for `str` in `s`. -/
def contains : List String → String → Bool
  | [], _ => false
  | v :: s, str => if v = str then true else contains s str

/-! ## The packer -/

/-- The function `emailSize`: the `int64` sum of the sizes, left to right. -/
def emailSize (files : List FileToSend) : Int :=
  files.foldl (fun acc file => add64 acc file.FileSize) 0

/-- The inner loop of `emailOptimizer` for one file: the bins are scanned in
index order, the file is appended to the first bin whose size plus the size of
the file is below `MaxEmailSize`, and the scan stops there (`break`); when no
bin takes the file the bins are left as they are. -/
def placeFile (file : FileToSend) : List (List FileToSend) → List (List FileToSend)
  | [] => []
  | bin :: rest =>
    if add64 (emailSize bin) file.FileSize < MaxEmailSize then
      (bin ++ [file]) :: rest
    else
      bin :: placeFile file rest

/-- One iteration of the outer loop of `emailOptimizer`: a file larger than
`MaxEmailSize` is skipped (`continue`), any other file goes through the scan of
the bins. -/
def packStep (optimizedEmails : List (List FileToSend)) (file : FileToSend) :
    List (List FileToSend) :=
  if file.FileSize > MaxEmailSize then optimizedEmails else placeFile file optimizedEmails

/-- The outer loop of `emailOptimizer`, started from the given bins. -/
def packLoop (files : List FileToSend) (optimizedEmails : List (List FileToSend)) :
    List (List FileToSend) :=
  files.foldl packStep optimizedEmails

/-- The initial value `[10][]FileToSend{}`: ten empty bins. -/
def emptyEmails : List (List FileToSend) := List.replicate 10 []

/-- The function `emailOptimizer`.  Its first statement,
`sort.Sort(sort.Reverse(BySize(files)))`, belongs to the standard library and
is the argument `sortFn`. -/
def emailOptimizer (sortFn : List FileToSend → List FileToSend) (files : List FileToSend) :
    List (List FileToSend) :=
  packLoop (sortFn files) emptyEmails

/-- What `sort.Sort(sort.Reverse(BySize(files)))` guarantees: the outcome is a
rearrangement of the input in which no element is followed, anywhere later, by
one of greater `FileSize` (`Less(j, i)` of the reversed order is false for
`i < j`).  The order among files of equal size is left open, as `sort.Sort` is
not stable. -/
structure SortsReverseBySize (sortFn : List FileToSend → List FileToSend) : Prop where
  perm : ∀ files, (sortFn files).Perm files
  sorted : ∀ files, (sortFn files).Pairwise (fun a b => ¬ a.FileSize < b.FileSize)

/-- An executable instance of the library sort: insertion sort into descending
order of `FileSize`. -/
def sortReverseBySize (files : List FileToSend) : List FileToSend :=
  files.insertionSort (fun a b => b.FileSize ≤ a.FileSize)

/-! ## Library functions with a fixed meaning -/

/-- The function `strings.HasSuffix`: `s` ends with `suffix`. -/
def HasSuffix (s suffix : String) : Bool := suffix.data.isSuffixOf s.data

/-- The loop of `filepath.Ext`, run over the characters of the path from the
last one backwards; `acc` is the part of the path already passed.  The scan
ends at a path separator (no extension) or at the first dot met (the extension,
dot included). -/
def extScan : List Char → List Char → List Char
  | [], _ => []
  | c :: before, acc =>
    if c = '/' then [] else if c = '.' then '.' :: acc else extScan before (c :: acc)

/-- The function `filepath.Ext`: the suffix of the last path element that
starts at its last dot, or the empty string when there is no dot. -/
def Ext (path : String) : String := String.mk (extScan path.data.reverse [])

/-- The expression `a.Filename[0:len(a.Filename)-len(filepath.Ext(a.Filename))]`. -/
def trimExt (filename : String) : String :=
  String.mk (filename.data.take (filename.length - (Ext filename).length))

/-! ## The world outside the repository -/

/-- A non-nil Go `error`, with its message. -/
structure Error where
  msg : String
deriving DecidableEq, Repr

/-- One record of the event, after `json.Unmarshal` and the four type
assertions of `handleRequest` (a record on which an assertion fails makes the
handler panic, and is not a value of this type). -/
structure Record where
  objectKey : String
  bucketName : String
  destinations : List String
  source : String
deriving DecidableEq, Repr

/-- An attachment of the parsed email: its file name and its bytes. -/
structure Attachment where
  Filename : String
  Data : List Nat
deriving DecidableEq, Repr

/-- The message built with `gomail`: headers, body, and the attachments as
pairs of the local file read and the name shown. -/
structure Message where
  From : String
  To : String
  Subject : String
  Body : String
  Attachments : List (String × String)
deriving DecidableEq, Repr

/-- The calls of `handleRequest` that act on the outside, with their
arguments. -/
inductive Effect where
  | GetItem (tableName recipientEmail : String)
  | Download (bucket key : String)
  | Create (name : String)
  | Copy (name : String) (attachment : Attachment)
  | Command (name : String) (args : List String)
  | Stat (name : String)
  | SendRawEmail (destinations : List String) (source : String) (rawMessage : Message)
  | DeleteObject (bucket key : String)
deriving DecidableEq, Repr

/-- The library functions and the services the handler calls.  A call that acts
on the outside receives the log of the effects before it. -/
structure World where
  /-- The statement `sort.Sort(sort.Reverse(BySize(files)))`. -/
  sortFn : List FileToSend → List FileToSend
  /-- The function `strings.ToLower`. -/
  toLower : String → String
  /-- The call `dynamodbClient.GetItem`: the `Item` of the output (`none` is a nil map)
  and the error. -/
  getItem : List Effect → String → String → Option (List (String × String)) × Option Error
  /-- The function `dynamodbattribute.UnmarshalMap`. -/
  unmarshalMap : List (String × String) → Except Error RecipientResult
  /-- The call `downloader.Download`: the bytes written to the buffer, or the error. -/
  download : List Effect → String → String → Except Error (List Nat)
  /-- The function `parsemail.Parse`: the attachments of the email, or the error. -/
  parse : List Nat → Except Error (List Attachment)
  /-- The call `os.Create`. -/
  create : List Effect → String → Option Error
  /-- The call `io.Copy`: the number of bytes written and the error. -/
  copy : List Effect → String → Attachment → Int × Option Error
  /-- The call `exec.Command(...).CombinedOutput()`. -/
  command : List Effect → String → List String → Option Error
  /-- The call `os.Stat` followed by `fi.Size()`. -/
  stat : List Effect → String → Except Error Int
  /-- The call `sesClient.SendRawEmail`. -/
  sendRawEmail : List Effect → List String → String → Message → Option Error

/-- How a part of the body of `handleRequest` ends: with a `return` of the
handler (the log and the error returned), or by going on (the log and the
value computed). -/
inductive Flow (α : Type) where
  | returned (log : List Effect) (err : Option Error)
  | continued (log : List Effect) (value : α)
deriving Repr

/-- The log at the end of a part of the handler. -/
def Flow.log {α : Type} : Flow α → List Effect
  | .returned log _ => log
  | .continued log _ => log

/-! ## The handler -/

/-- The function `handleError`: the stored email is deleted, with the first
argument as the bucket and the second as the key, and the error is passed
through. -/
def handleError {α : Type} (log : List Effect) (bucketName objectKey : String)
    (err : Option Error) : Flow α :=
  .returned (log ++ [Effect.DeleteObject bucketName objectKey]) err

/-- The loop of `handleRequest` over `destinations`: every destination that
ends with `BaseReceiveDomain` is assigned to `intendedDestination`, which
starts as the empty string. -/
def intendedDestination (destinations : List String) : String :=
  destinations.foldl
    (fun intended destination =>
      if HasSuffix destination BaseReceiveDomain then destination else intended) ""

/-- The three ways the attachment loop treats a file. -/
inductive Classification where
  | Accepted
  | Convertible
  | Dropped
deriving DecidableEq, Repr

/-- The two tests of the attachment loop on
`strings.ToLower(filepath.Ext(a.Filename))`: in the list of the supported types
the file is sent as it is; otherwise, not in the list of the types that can be
converted, it is skipped; otherwise it is converted. -/
def classify (toLower : String → String) (filename : String) : Classification :=
  if contains getAlreadySupportedFileTypes (toLower (Ext filename)) then
    Classification.Accepted
  else if !contains getSupportedConversionFileTypes (toLower (Ext filename)) then
    Classification.Dropped
  else
    Classification.Convertible

/-- The body of the loop over `email.Attachments`, for the attachment `a` at
index `i`. -/
def attachmentStep (w : World) (objectKey bucketName : String) (i : Nat) (a : Attachment)
    (filesToSend : List FileToSend) (log : List Effect) : Flow (List FileToSend) :=
  let fileLocation := Folder ++ "/" ++ "book" ++ toString i ++ Ext a.Filename
  let log1 := log ++ [Effect.Create fileLocation]
  match w.create log fileLocation with
  | some err => handleError log1 objectKey bucketName (some err)
  | none =>
    let log2 := log1 ++ [Effect.Copy fileLocation a]
    match w.copy log1 fileLocation a with
    | (_, some err) => handleError log2 objectKey bucketName (some err)
    | (fileSize, none) =>
      match classify w.toLower a.Filename with
      | Classification.Accepted =>
        .continued log2 (filesToSend ++ [⟨fileLocation, a.Filename, fileSize⟩])
      | Classification.Dropped => .continued log2 filesToSend
      | Classification.Convertible =>
        let convertedFileLocation := Folder ++ "/" ++ "book" ++ toString i ++ ".mobi"
        let log3 := log2 ++ [Effect.Command "ebook-convert" [fileLocation, convertedFileLocation]]
        match w.command log2 "ebook-convert" [fileLocation, convertedFileLocation] with
        | some err => handleError log3 objectKey bucketName (some err)
        | none =>
          let log4 := log3 ++ [Effect.Stat convertedFileLocation]
          match w.stat log3 convertedFileLocation with
          | .error err => handleError log4 objectKey bucketName (some err)
          | .ok fileSizeConverted =>
            .continued log4
              (filesToSend ++
                [⟨convertedFileLocation, trimExt a.Filename ++ ".mobi", fileSizeConverted⟩])

/-- The loop over `email.Attachments`, from index `i` on. -/
def attachmentLoop (w : World) (objectKey bucketName : String) :
    Nat → List Attachment → List FileToSend → List Effect → Flow (List FileToSend)
  | _, [], filesToSend, log => .continued log filesToSend
  | i, a :: rest, filesToSend, log =>
    match attachmentStep w objectKey bucketName i a filesToSend log with
    | .returned log1 err => .returned log1 err
    | .continued log1 filesToSend1 =>
      attachmentLoop w objectKey bucketName (i + 1) rest filesToSend1 log1

/-- The message and the `ses.SendRawEmailInput` built for one bin and one
destination. -/
def rawEmail (destination : String) (bin : List FileToSend) : Message :=
  { From := Sender, To := destination, Subject := "", Body := "",
    Attachments := bin.map (fun fileToSend => (fileToSend.LocalFilename, fileToSend.DisplayFilename)) }

/-- The inner loop of the delivery, over the bins, for one destination: it
stops (`break`) at the first bin without files, and returns from the handler
when a send fails. -/
def sendLoop (w : World) (objectKey bucketName destination : String) :
    List (List FileToSend) → List Effect → Flow Unit
  | [], log => .continued log ()
  | bin :: rest, log =>
    if !(bin.length > 0) then
      .continued log ()
    else
      let log1 := log ++ [Effect.SendRawEmail [destination] Sender (rawEmail destination bin)]
      match w.sendRawEmail log [destination] Sender (rawEmail destination bin) with
      | some err => handleError log1 objectKey bucketName (some err)
      | none => sendLoop w objectKey bucketName destination rest log1

/-- The outer loop of the delivery, over `item.DestinationEmails`. -/
def destinationLoop (w : World) (objectKey bucketName : String)
    (optimizedEmails : List (List FileToSend)) : List String → List Effect → Flow Unit
  | [], log => .continued log ()
  | destination :: rest, log =>
    match sendLoop w objectKey bucketName destination optimizedEmails log with
    | .returned log1 err => .returned log1 err
    | .continued log1 _ => destinationLoop w objectKey bucketName optimizedEmails rest log1

/-- The body of the loop of `handleRequest` over the records of the event.
Every call of `handleError` is written with the arguments in the order of the
source, `handleError(objectKey, bucketName, err)`. -/
def handleRecord (w : World) (record : Record) (log : List Effect) : Flow Unit :=
  let objectKey := record.objectKey
  let bucketName := record.bucketName
  let source := record.source
  let intended := intendedDestination record.destinations
  let log1 := log ++ [Effect.GetItem TableName intended]
  match w.getItem log TableName intended with
  | (none, err) => handleError log1 objectKey bucketName err
  | (some recipientItem, _) =>
    match w.unmarshalMap recipientItem with
    | .error err =>
      handleError log1 objectKey bucketName
        (some ⟨"Failed to unmarshal Record, " ++ err.msg⟩)
    | .ok item =>
      if !contains item.ApprovedEmails source then
        handleError log1 objectKey bucketName (some ⟨"unapproved email"⟩)
      else
        let log2 := log1 ++ [Effect.Download bucketName objectKey]
        match w.download log1 bucketName objectKey with
        | .error err => handleError log2 objectKey bucketName (some err)
        | .ok emailBytes =>
          match w.parse emailBytes with
          | .error err => handleError log2 objectKey bucketName (some err)
          | .ok attachments =>
            match attachmentLoop w objectKey bucketName 0 attachments [] log2 with
            | .returned log3 err => .returned log3 err
            | .continued log3 filesToSend =>
              let optimizedEmails := emailOptimizer w.sortFn filesToSend
              match destinationLoop w objectKey bucketName optimizedEmails
                  item.DestinationEmails log3 with
              | .returned log4 err => .returned log4 err
              | .continued log4 _ =>
                .continued (log4 ++ [Effect.DeleteObject bucketName objectKey]) ()

/-- The function `handleRequest`: the records of the event are handled in
order; the first `return` inside the loop ends the handler, and after the last
record `nil` is returned.  The result is the log of the effects and the error
returned. -/
def handleRequest (w : World) : List Record → List Effect → List Effect × Option Error
  | [], log => (log, none)
  | record :: rest, log =>
    match handleRecord w record log with
    | .returned log1 err => (log1, err)
    | .continued log1 _ => handleRequest w rest log1

/-! ## Definitions that follow the words of the specification

They are compared with the definitions above in the theorems below. -/

/-- The test of the packer on all the bins at once: some bin has a current sum
which, plus the size of the file, is below `MaxEmailSize`. -/
def fitsSomeBin (bins : List (List FileToSend)) (file : FileToSend) : Bool :=
  bins.any (fun bin => decide (add64 (emailSize bin) file.FileSize < MaxEmailSize))

/-- Specification side of the conservation property: the files of a run of the
packer that, when their turn comes, have at least one bin whose current sum
plus their size is below `MaxEmailSize`.  The bins evolve as `packStep` makes
them evolve. -/
def placedFiles : List FileToSend → List (List FileToSend) → List FileToSend
  | [], _ => []
  | file :: rest, bins =>
    if fitsSomeBin bins file then
      file :: placedFiles rest (packStep bins file)
    else
      placedFiles rest (packStep bins file)

/-- Specification side of the delivery for one destination: the bins are
visited in index order, a bin without files is skipped (`continue`), and the
handler returns when a send fails. -/
def sendLoopSkippingEmpty (w : World) (objectKey bucketName destination : String) :
    List (List FileToSend) → List Effect → Flow Unit
  | [], log => .continued log ()
  | bin :: rest, log =>
    if !(bin.length > 0) then
      sendLoopSkippingEmpty w objectKey bucketName destination rest log
    else
      let log1 := log ++ [Effect.SendRawEmail [destination] Sender (rawEmail destination bin)]
      match w.sendRawEmail log [destination] Sender (rawEmail destination bin) with
      | some err => handleError log1 objectKey bucketName (some err)
      | none => sendLoopSkippingEmpty w objectKey bucketName destination rest log1

/-- Specification side of the delivery: the loop over the destinations, with
the inner loop that skips the bins without files. -/
def destinationLoopSkippingEmpty (w : World) (objectKey bucketName : String)
    (optimizedEmails : List (List FileToSend)) : List String → List Effect → Flow Unit
  | [], log => .continued log ()
  | destination :: rest, log =>
    match sendLoopSkippingEmpty w objectKey bucketName destination optimizedEmails log with
    | .returned log1 err => .returned log1 err
    | .continued log1 _ =>
      destinationLoopSkippingEmpty w objectKey bucketName optimizedEmails rest log1

/-! ## Reading the log -/

/-- The effect is a submission of an outbound message (`SendRawEmail`). -/
def Effect.isSend : Effect → Bool
  | .SendRawEmail _ _ _ => true
  | _ => false

/-- The effect is a run of the conversion tool. -/
def Effect.isConversion : Effect → Bool
  | .Command _ _ => true
  | _ => false

/-- The effect is a delete in the object store. -/
def Effect.isDelete : Effect → Bool
  | .DeleteObject _ _ => true
  | _ => false

/-- The deletes of a part of the handler that starts with the log `log`: none
when the part goes on, and exactly one when the handler returns from inside it,
namely `expected`. -/
def OneDeleteOnReturn {α : Type} (log : List Effect) (expected : Effect) : Flow α → Prop
  | .returned log1 _ => ∃ added, log1 = log ++ added ∧ added.filter Effect.isDelete = [expected]
  | .continued log1 _ => ∃ added, log1 = log ++ added ∧ added.filter Effect.isDelete = []

/-- The shape of the log of one record: after `log` comes the effect `first`,
and among the effects after it there is exactly one delete, `onReturn` when the
handler returns from inside the body of the loop and `onEnd` when the body runs
to its end. -/
def RecordTrace {α : Type} (log : List Effect) (first onReturn onEnd : Effect) :
    Flow α → Prop
  | .returned log1 _ =>
    ∃ later, log1 = log ++ first :: later ∧ later.filter Effect.isDelete = [onReturn]
  | .continued log1 _ =>
    ∃ later, log1 = log ++ first :: later ∧ later.filter Effect.isDelete = [onEnd]

/-! ## Concrete inputs used in the examples -/

/-- One mebibyte. -/
def MiB : Int := 1048576

/-- Five files of 4, 4, 3, 3 and 2 MiB. -/
def scenarioFiles : List FileToSend :=
  [⟨"/tmp/book0.pdf", "a.pdf", 4 * MiB⟩, ⟨"/tmp/book1.pdf", "b.pdf", 4 * MiB⟩,
   ⟨"/tmp/book2.pdf", "c.pdf", 3 * MiB⟩, ⟨"/tmp/book3.pdf", "d.pdf", 3 * MiB⟩,
   ⟨"/tmp/book4.pdf", "e.pdf", 2 * MiB⟩]

/-- Three files: one above `MaxEmailSize`, one of exactly `MaxEmailSize`, one
small. -/
def mixedFiles : List FileToSend :=
  [⟨"/tmp/book0.pdf", "small.pdf", 1000⟩, ⟨"/tmp/book1.pdf", "huge.pdf", 6291457⟩,
   ⟨"/tmp/book2.pdf", "exact.pdf", 6291456⟩]

/-- Eleven files of 4 MiB each, with different names. -/
def elevenFiles : List FileToSend :=
  (List.range 11).map (fun i => ⟨"/tmp/book" ++ toString i ++ ".pdf", "x.pdf", 4 * MiB⟩)

/-- A lowercasing that, like `strings.ToLower`, maps the letters `A` to `Z` to
`a` to `z`, and that leaves every other character as it is. -/
def asciiToLower (s : String) : String := String.mk (s.data.map Char.toLower)

/-- A policy store with one record, for `box@kindle.vangel.io`, which approves
`alice@example.com` and forwards to `alice@kindle.com`; every other call
succeeds, every attachment has 100 bytes. -/
def sampleWorld : World where
  sortFn := sortReverseBySize
  toLower := asciiToLower
  getItem := fun _ _ recipientEmail =>
    if recipientEmail = "box@kindle.vangel.io" then
      (some [("RecipientEmail", "box@kindle.vangel.io")], none)
    else
      (none, none)
  unmarshalMap := fun _ =>
    .ok ⟨"box@kindle.vangel.io", ["alice@example.com"], ["alice@kindle.com"]⟩
  download := fun _ _ _ => .ok []
  parse := fun _ => .ok [⟨"book.PDF", []⟩]
  create := fun _ _ => none
  copy := fun _ _ _ => (100, none)
  command := fun _ _ _ => none
  stat := fun _ _ => .ok 100
  sendRawEmail := fun _ _ _ _ => none

/-- A record from an approved sender to the known mailbox. -/
def approvedRecord : Record :=
  { objectKey := "mail/1", bucketName := "inbox-bucket",
    destinations := ["box@kindle.vangel.io"], source := "alice@example.com" }

/-- A record from a sender that the policy record does not approve. -/
def unapprovedRecord : Record :=
  { objectKey := "mail/1", bucketName := "inbox-bucket",
    destinations := ["box@kindle.vangel.io"], source := "mallory@example.com" }

/-- A record for a mailbox without a policy record. -/
def unknownRecipientRecord : Record :=
  { objectKey := "mail/2", bucketName := "inbox-bucket",
    destinations := ["nobody@kindle.vangel.io"], source := "alice@example.com" }

/-- A destination list with two addresses of the receive domain. -/
def twoLocalDestinations : List String :=
  ["first@kindle.vangel.io", "other@example.com", "second@kindle.vangel.io"]

/-- A record addressed to two mailboxes of the receive domain. -/
def twoLocalRecord : Record :=
  { objectKey := "mail/3", bucketName := "inbox-bucket",
    destinations := twoLocalDestinations, source := "alice@example.com" }

/-! ## Arithmetic of the packer -/

theorem MaxEmailSize_eq : MaxEmailSize = 6291456 := by decide

theorem wrap64_of_isInt64 {x : Int} (h : IsInt64 x) : wrap64 x = x := by
  unfold IsInt64 at h
  unfold wrap64
  omega

theorem add64_zero_left {x : Int} (h : IsInt64 x) : add64 0 x = x := by
  unfold add64
  rw [Int.zero_add]
  exact wrap64_of_isInt64 h

theorem emailSize_nil : emailSize [] = 0 := rfl

theorem emailSize_append_singleton (bin : List FileToSend) (file : FileToSend) :
    emailSize (bin ++ [file]) = add64 (emailSize bin) file.FileSize := by
  simp [emailSize, List.foldl_append]

/-! ## Shape of the bins -/

theorem placeFile_length (file : FileToSend) (bins : List (List FileToSend)) :
    (placeFile file bins).length = bins.length := by
  induction bins with
  | nil => rfl
  | cons bin rest ih =>
    unfold placeFile
    split <;> simp [ih]

theorem packStep_length (bins : List (List FileToSend)) (file : FileToSend) :
    (packStep bins file).length = bins.length := by
  unfold packStep
  split
  · rfl
  · exact placeFile_length file bins

theorem packLoop_length (files : List FileToSend) (bins : List (List FileToSend)) :
    (packLoop files bins).length = bins.length := by
  induction files generalizing bins with
  | nil => rfl
  | cons file rest ih =>
    show (packLoop rest (packStep bins file)).length = bins.length
    rw [ih, packStep_length]

theorem emailOptimizer_length (sortFn : List FileToSend → List FileToSend)
    (files : List FileToSend) : (emailOptimizer sortFn files).length = 10 := by
  unfold emailOptimizer
  rw [packLoop_length]
  rfl

/-! ## Every bin stays below `MaxEmailSize` -/

theorem le_wrap64 {x : Int} (h : x < 2 ^ 63) : x ≤ wrap64 x := by
  unfold wrap64
  omega

/-- The state of a bin that the packer maintains: the exact sum of the sizes is
at most the `int64` sum, which is below `MaxEmailSize`. -/
theorem placeFile_below (file : FileToSend) (bins : List (List FileToSend))
    (hfile : ¬ file.FileSize > MaxEmailSize)
    (h : ∀ bin ∈ bins,
      (bin.map (fun f => f.FileSize)).sum ≤ emailSize bin ∧ emailSize bin < MaxEmailSize) :
    ∀ bin ∈ placeFile file bins,
      (bin.map (fun f => f.FileSize)).sum ≤ emailSize bin ∧ emailSize bin < MaxEmailSize := by
  induction bins with
  | nil => intro bin hb; simp [placeFile] at hb
  | cons b rest ih =>
    have hb := h b (List.mem_cons_self _ _)
    have hrest : ∀ bin ∈ rest,
        (bin.map (fun f => f.FileSize)).sum ≤ emailSize bin ∧ emailSize bin < MaxEmailSize :=
      fun bin hbin => h bin (List.mem_cons_of_mem _ hbin)
    unfold placeFile
    split
    · rename_i hfit
      intro bin hbin
      rcases List.mem_cons.mp hbin with rfl | hmem
      · rw [emailSize_append_singleton]
        refine ⟨?_, hfit⟩
        have hmax := MaxEmailSize_eq
        have hw : emailSize b + file.FileSize ≤ wrap64 (emailSize b + file.FileSize) :=
          le_wrap64 (by omega)
        simp only [List.map_append, List.map_cons, List.map_nil, List.sum_append,
          List.sum_cons, List.sum_nil, add_zero]
        unfold add64
        omega
      · exact hrest bin hmem
    · intro bin hbin
      rcases List.mem_cons.mp hbin with rfl | hmem
      · exact hb
      · exact ih hrest bin hmem

theorem packLoop_below (files : List FileToSend) (bins : List (List FileToSend))
    (h : ∀ bin ∈ bins,
      (bin.map (fun f => f.FileSize)).sum ≤ emailSize bin ∧ emailSize bin < MaxEmailSize) :
    ∀ bin ∈ packLoop files bins,
      (bin.map (fun f => f.FileSize)).sum ≤ emailSize bin ∧ emailSize bin < MaxEmailSize := by
  induction files generalizing bins with
  | nil => exact h
  | cons file rest ih =>
    apply ih (packStep bins file)
    unfold packStep
    split
    · exact h
    · rename_i hfile
      exact placeFile_below file bins hfile h

theorem emptyEmails_below : ∀ bin ∈ emptyEmails,
    (bin.map (fun f => f.FileSize)).sum ≤ emailSize bin ∧ emailSize bin < MaxEmailSize := by
  intro bin hbin
  have : bin = [] := List.eq_of_mem_replicate hbin
  subst this
  decide

/-- C3 (packer fit): for every input list, and whatever order the library sort
leaves the files in, `emailOptimizer` returns ten bins, and the summed
`FileSize` of every one of them, as `emailSize` computes it in `int64` and also
as the exact sum of the integers, is strictly less than `MaxEmailSize`, which
is 6291456. -/
theorem emailOptimizer_bins_below_max (sortFn : List FileToSend → List FileToSend)
    (files : List FileToSend) :
    (emailOptimizer sortFn files).length = 10 ∧
    MaxEmailSize = 6291456 ∧
    (∀ bin ∈ emailOptimizer sortFn files, emailSize bin < MaxEmailSize) ∧
    (∀ bin ∈ emailOptimizer sortFn files,
      (bin.map (fun f => f.FileSize)).sum < MaxEmailSize) := by
  have h := packLoop_below (sortFn files) emptyEmails emptyEmails_below
  refine ⟨emailOptimizer_length sortFn files, MaxEmailSize_eq, ?_, ?_⟩
  · intro bin hbin
    exact (h bin hbin).2
  · intro bin hbin
    exact lt_of_le_of_lt (h bin hbin).1 (h bin hbin).2

theorem emailOptimizer_bins_below_max_witness :
    (emailOptimizer sortReverseBySize elevenFiles).length = 10 ∧
    MaxEmailSize = 6291456 ∧
    (∀ bin ∈ emailOptimizer sortReverseBySize elevenFiles, emailSize bin < MaxEmailSize) ∧
    (∀ bin ∈ emailOptimizer sortReverseBySize elevenFiles,
      (bin.map (fun f => f.FileSize)).sum < MaxEmailSize) :=
  emailOptimizer_bins_below_max sortReverseBySize elevenFiles

/-! ## Conservation -/

theorem sortReverseBySize_sorts : SortsReverseBySize sortReverseBySize := by
  constructor
  · intro files
    exact List.perm_insertionSort _ files
  · intro files
    have hs : (sortReverseBySize files).Sorted (fun a b => b.FileSize ≤ a.FileSize) := by
      haveI : IsTotal FileToSend (fun a b => b.FileSize ≤ a.FileSize) :=
        ⟨fun a b => le_total b.FileSize a.FileSize⟩
      haveI : IsTrans FileToSend (fun a b => b.FileSize ≤ a.FileSize) :=
        ⟨fun a b c hab hbc => le_trans hbc hab⟩
      exact List.sorted_insertionSort _ files
    exact List.Pairwise.imp (fun h => not_lt.mpr h) hs

theorem placeFile_of_not_fits (file : FileToSend) (bins : List (List FileToSend))
    (h : fitsSomeBin bins file = false) : placeFile file bins = bins := by
  induction bins with
  | nil => rfl
  | cons bin rest ih =>
    simp only [fitsSomeBin, List.any_cons, Bool.or_eq_false_iff, decide_eq_false_iff_not] at h
    unfold placeFile
    rw [if_neg h.1]
    have : fitsSomeBin rest file = false := h.2
    rw [ih this]

theorem placeFile_flatten_of_fits (file : FileToSend) (bins : List (List FileToSend))
    (h : fitsSomeBin bins file = true) :
    (placeFile file bins).flatten.Perm (file :: bins.flatten) := by
  induction bins with
  | nil => simp [fitsSomeBin] at h
  | cons bin rest ih =>
    unfold placeFile
    by_cases hfit : add64 (emailSize bin) file.FileSize < MaxEmailSize
    · rw [if_pos hfit]
      simp only [List.flatten_cons, List.append_assoc]
      have h1 : (bin ++ ([file] ++ rest.flatten)).Perm (bin ++ (file :: rest.flatten)) := by
        simp
      exact h1.trans List.perm_middle
    · rw [if_neg hfit]
      have hrest : fitsSomeBin rest file = true := by
        simp only [fitsSomeBin, List.any_cons, Bool.or_eq_true, decide_eq_true_eq] at h
        rcases h with h | h
        · exact absurd h hfit
        · exact h
      simp only [List.flatten_cons]
      have h2 : (bin ++ (placeFile file rest).flatten).Perm (bin ++ (file :: rest.flatten)) :=
        List.Perm.append_left bin (ih hrest)
      exact h2.trans List.perm_middle

theorem placeFile_mem (file : FileToSend) (bins : List (List FileToSend)) :
    ∀ bin ∈ placeFile file bins, ∀ f ∈ bin, f = file ∨ ∃ old ∈ bins, f ∈ old := by
  induction bins with
  | nil => intro bin hb; simp [placeFile] at hb
  | cons b rest ih =>
    unfold placeFile
    split
    · intro bin hbin f hf
      rcases List.mem_cons.mp hbin with rfl | hmem
      · rcases List.mem_append.mp hf with hf | hf
        · exact Or.inr ⟨b, List.mem_cons_self _ _, hf⟩
        · exact Or.inl (List.mem_singleton.mp hf)
      · exact Or.inr ⟨bin, List.mem_cons_of_mem _ hmem, hf⟩
    · intro bin hbin f hf
      rcases List.mem_cons.mp hbin with rfl | hmem
      · exact Or.inr ⟨bin, List.mem_cons_self _ _, hf⟩
      · rcases ih bin hmem f hf with h | ⟨old, hold, hfo⟩
        · exact Or.inl h
        · exact Or.inr ⟨old, List.mem_cons_of_mem _ hold, hfo⟩

theorem packLoop_no_oversize (files : List FileToSend) (bins : List (List FileToSend))
    (h : ∀ bin ∈ bins, ∀ f ∈ bin, ¬ f.FileSize > MaxEmailSize) :
    ∀ bin ∈ packLoop files bins, ∀ f ∈ bin, ¬ f.FileSize > MaxEmailSize := by
  induction files generalizing bins with
  | nil => exact h
  | cons file rest ih =>
    apply ih (packStep bins file)
    unfold packStep
    split
    · exact h
    · rename_i hsmall
      intro bin hbin f hf
      rcases placeFile_mem file bins bin hbin f hf with rfl | ⟨old, hold, hfo⟩
      · exact hsmall
      · exact h old hold f hfo

theorem fitsSomeBin_of_all_empty (file : FileToSend) (bins : List (List FileToSend))
    (hempty : ∀ bin ∈ bins, bin = []) (hbig : file.FileSize > MaxEmailSize)
    (hint : IsInt64 file.FileSize) : fitsSomeBin bins file = false := by
  unfold fitsSomeBin
  rw [List.any_eq_false]
  intro bin hbin
  rw [hempty bin hbin, emailSize_nil, add64_zero_left hint]
  simpa using le_of_lt hbig

theorem packLoop_flatten_placed (files : List FileToSend) (bins : List (List FileToSend))
    (hsorted : files.Pairwise (fun a b => ¬ a.FileSize < b.FileSize))
    (hint : ∀ f ∈ files, IsInt64 f.FileSize)
    (hinv : (∀ bin ∈ bins, bin = []) ∨ ∀ f ∈ files, ¬ f.FileSize > MaxEmailSize) :
    (packLoop files bins).flatten.Perm (bins.flatten ++ placedFiles files bins) := by
  induction files generalizing bins with
  | nil => simp [packLoop, placedFiles]
  | cons file rest ih =>
    have hsorted_rest := (List.pairwise_cons.mp hsorted).2
    have hhead := (List.pairwise_cons.mp hsorted).1
    have hint_rest : ∀ f ∈ rest, IsInt64 f.FileSize :=
      fun f hf => hint f (List.mem_cons_of_mem _ hf)
    show (packLoop rest (packStep bins file)).flatten.Perm _
    by_cases hbig : file.FileSize > MaxEmailSize
    · -- an oversized file meets empty bins only, and none of them takes it
      have hempty : ∀ bin ∈ bins, bin = [] := by
        rcases hinv with h | h
        · exact h
        · exact absurd hbig (h file (List.mem_cons_self _ _))
      have hnofit := fitsSomeBin_of_all_empty file bins hempty hbig
        (hint file (List.mem_cons_self _ _))
      have hstep : packStep bins file = bins := by
        unfold packStep; rw [if_pos hbig]
      have hplaced : placedFiles (file :: rest) bins = placedFiles rest bins := by
        simp [placedFiles, hnofit, hstep]
      rw [hstep, hplaced]
      exact ih bins hsorted_rest hint_rest (Or.inl hempty)
    · have hstep : packStep bins file = placeFile file bins := by
        unfold packStep; rw [if_neg hbig]
      have hrest_small : ∀ f ∈ rest, ¬ f.FileSize > MaxEmailSize := by
        intro f hf hfbig
        have := hhead f hf
        omega
      have hrec := ih (packStep bins file) hsorted_rest hint_rest (Or.inr hrest_small)
      by_cases hfit : fitsSomeBin bins file = true
      · have hplaced : placedFiles (file :: rest) bins =
            file :: placedFiles rest (packStep bins file) := by
          simp [placedFiles, hfit]
        rw [hplaced]
        refine hrec.trans ?_
        rw [hstep]
        have h1 := placeFile_flatten_of_fits file bins hfit
        have h2 : ((placeFile file bins).flatten ++ placedFiles rest (placeFile file bins)).Perm
            ((file :: bins.flatten) ++ placedFiles rest (placeFile file bins)) :=
          List.Perm.append_right _ h1
        exact h2.trans (by simpa using List.perm_middle.symm)
      · have hfit2 : fitsSomeBin bins file = false := by simpa using hfit
        have hplaced : placedFiles (file :: rest) bins =
            placedFiles rest (packStep bins file) := by
          simp [placedFiles, hfit2]
        rw [hplaced]
        refine hrec.trans ?_
        rw [hstep, placeFile_of_not_fits file bins hfit2]

theorem placedFiles_sublist (files : List FileToSend) (bins : List (List FileToSend)) :
    (placedFiles files bins).Sublist files := by
  induction files generalizing bins with
  | nil => simp [placedFiles]
  | cons file rest ih =>
    unfold placedFiles
    split
    · exact (ih _).cons₂ file
    · exact (ih _).cons file

theorem emptyEmails_flatten : emptyEmails.flatten = [] := by decide

/-- C6 (packer conservation): for every input list of files whose sizes are
`int64` values, and every outcome of the library sort (a rearrangement of the
input into descending size), (i) no file with `FileSize > MaxEmailSize` is in
any bin of the output of `emailOptimizer`; (ii) the members of all the bins
together are, counted with multiplicity, exactly the files that had, when their
turn came in the sorted order, at least one bin whose current sum plus their
size was below `MaxEmailSize`: each of these is in one bin, once; and (iii)
nothing else is in a bin: those files are a sublist of the sorted input, so the
members of the bins are a sub-multiset of the input, and no member is repeated
when the input has no repetition. -/
theorem emailOptimizer_conservation (sortFn : List FileToSend → List FileToSend)
    (hsort : SortsReverseBySize sortFn) (files : List FileToSend)
    (hint : ∀ f ∈ files, IsInt64 f.FileSize) :
    (∀ bin ∈ emailOptimizer sortFn files, ∀ f ∈ bin, ¬ f.FileSize > MaxEmailSize) ∧
    (emailOptimizer sortFn files).flatten.Perm (placedFiles (sortFn files) emptyEmails) ∧
    (placedFiles (sortFn files) emptyEmails).Sublist (sortFn files) ∧
    (emailOptimizer sortFn files).flatten.Subperm files ∧
    (files.Nodup → (emailOptimizer sortFn files).flatten.Nodup) := by
  have hperm : (emailOptimizer sortFn files).flatten.Perm
      (placedFiles (sortFn files) emptyEmails) := by
    have h := packLoop_flatten_placed (sortFn files) emptyEmails (hsort.sorted files)
      (fun f hf => hint f ((hsort.perm files).mem_iff.mp hf))
      (Or.inl (fun bin hbin => List.eq_of_mem_replicate hbin))
    rw [emptyEmails_flatten, List.nil_append] at h
    exact h
  have hsub := placedFiles_sublist (sortFn files) emptyEmails
  have hsubperm : (emailOptimizer sortFn files).flatten.Subperm files :=
    (hperm.subperm.trans hsub.subperm).trans (hsort.perm files).subperm
  refine ⟨?_, hperm, hsub, hsubperm, ?_⟩
  · apply packLoop_no_oversize
    intro bin hbin f hf
    rw [List.eq_of_mem_replicate hbin] at hf
    simp at hf
  · intro hnodup
    obtain ⟨l, hl, hs⟩ := hsubperm
    exact hl.nodup_iff.mp (List.Nodup.sublist hs hnodup)

theorem emailOptimizer_conservation_witness :
    SortsReverseBySize sortReverseBySize ∧ (∀ f ∈ mixedFiles, IsInt64 f.FileSize) ∧
    ((∀ bin ∈ emailOptimizer sortReverseBySize mixedFiles, ∀ f ∈ bin,
        ¬ f.FileSize > MaxEmailSize) ∧
      (emailOptimizer sortReverseBySize mixedFiles).flatten.Perm
        (placedFiles (sortReverseBySize mixedFiles) emptyEmails) ∧
      (placedFiles (sortReverseBySize mixedFiles) emptyEmails).Sublist
        (sortReverseBySize mixedFiles) ∧
      (emailOptimizer sortReverseBySize mixedFiles).flatten.Subperm mixedFiles ∧
      (mixedFiles.Nodup → (emailOptimizer sortReverseBySize mixedFiles).flatten.Nodup)) :=
  ⟨sortReverseBySize_sorts, by decide,
    emailOptimizer_conservation sortReverseBySize sortReverseBySize_sorts mixedFiles
      (by decide)⟩

/-! ## No loss for at most ten files -/

theorem fitsSomeBin_of_empty_bin (file : FileToSend) (bins : List (List FileToSend))
    (hempty : ∃ bin ∈ bins, bin = [])
    (hsize : 0 ≤ file.FileSize ∧ file.FileSize < MaxEmailSize) :
    fitsSomeBin bins file = true := by
  obtain ⟨bin, hbin, rfl⟩ := hempty
  unfold fitsSomeBin
  rw [List.any_eq_true]
  refine ⟨[], hbin, ?_⟩
  have hint : IsInt64 file.FileSize := by
    have := MaxEmailSize_eq
    unfold IsInt64
    omega
  rw [emailSize_nil, add64_zero_left hint]
  simpa using hsize.2

theorem placeFile_countP (file : FileToSend) (bins : List (List FileToSend)) :
    (placeFile file bins).countP (fun bin => !bin.isEmpty) ≤
      bins.countP (fun bin => !bin.isEmpty) + 1 := by
  induction bins with
  | nil => simp [placeFile]
  | cons bin rest ih =>
    unfold placeFile
    split
    · simp only [List.countP_cons]
      split <;> split <;> omega
    · simp only [List.countP_cons]
      split <;> omega

theorem exists_empty_of_countP_lt (bins : List (List FileToSend))
    (h : bins.countP (fun bin => !bin.isEmpty) < bins.length) : ∃ bin ∈ bins, bin = [] := by
  by_contra hne
  push_neg at hne
  have hall : bins.countP (fun bin => !bin.isEmpty) = bins.length := by
    rw [List.countP_eq_length]
    intro bin hbin
    have := hne bin hbin
    cases bin with
    | nil => exact absurd rfl this
    | cons a l => rfl
  omega

theorem packLoop_flatten_of_room (files : List FileToSend) (bins : List (List FileToSend))
    (hroom : bins.countP (fun bin => !bin.isEmpty) + files.length ≤ bins.length)
    (hsize : ∀ f ∈ files, 0 ≤ f.FileSize ∧ f.FileSize < MaxEmailSize) :
    (packLoop files bins).flatten.Perm (bins.flatten ++ files) := by
  induction files generalizing bins with
  | nil => simp [packLoop]
  | cons file rest ih =>
    have hfile := hsize file (List.mem_cons_self _ _)
    have hlen : (file :: rest).length = rest.length + 1 := rfl
    have hfit : fitsSomeBin bins file = true :=
      fitsSomeBin_of_empty_bin file bins
        (exists_empty_of_countP_lt bins (by omega)) hfile
    have hstep : packStep bins file = placeFile file bins := by
      unfold packStep
      rw [if_neg (by omega)]
    show (packLoop rest (packStep bins file)).flatten.Perm _
    rw [hstep]
    have hroom2 : (placeFile file bins).countP (fun bin => !bin.isEmpty) + rest.length ≤
        (placeFile file bins).length := by
      have := placeFile_countP file bins
      rw [placeFile_length]
      omega
    refine (ih (placeFile file bins) hroom2
      (fun f hf => hsize f (List.mem_cons_of_mem _ hf))).trans ?_
    have h1 := placeFile_flatten_of_fits file bins hfit
    exact (List.Perm.append_right rest h1).trans (by simpa using List.perm_middle.symm)

theorem emptyEmails_countP : emptyEmails.countP (fun bin => !bin.isEmpty) = 0 := by decide

theorem emptyEmails_length : emptyEmails.length = 10 := by decide

/-- C10 (no loss for small batches): for every input list of at most 10 files,
each with `0 ≤ FileSize < MaxEmailSize`, and every rearrangement the library
sort makes of it, `emailOptimizer` drops nothing: the members of the bins, all
bins together, are a permutation of the input, so that every input file is in
one bin, once (and with an input without repetition no file is in two bins or
twice in one).  By contraposition a file with `0 ≤ FileSize < MaxEmailSize` is
dropped only when more than 10 files are packed. -/
theorem emailOptimizer_no_loss_small_batch (sortFn : List FileToSend → List FileToSend)
    (hsort : SortsReverseBySize sortFn) (files : List FileToSend)
    (hlen : files.length ≤ 10)
    (hsize : ∀ f ∈ files, 0 ≤ f.FileSize ∧ f.FileSize < MaxEmailSize) :
    (emailOptimizer sortFn files).flatten.Perm files ∧
    (files.Nodup → (emailOptimizer sortFn files).flatten.Nodup) := by
  have hperm : (emailOptimizer sortFn files).flatten.Perm files := by
    have hp := hsort.perm files
    have h := packLoop_flatten_of_room (sortFn files) emptyEmails
      (by rw [emptyEmails_countP, emptyEmails_length, hp.length_eq]; omega)
      (fun f hf => hsize f (hp.mem_iff.mp hf))
    rw [emptyEmails_flatten, List.nil_append] at h
    exact h.trans hp
  exact ⟨hperm, fun hnodup => hperm.nodup_iff.mpr hnodup⟩

theorem emailOptimizer_no_loss_small_batch_witness :
    SortsReverseBySize sortReverseBySize ∧ scenarioFiles.length ≤ 10 ∧
    (∀ f ∈ scenarioFiles, 0 ≤ f.FileSize ∧ f.FileSize < MaxEmailSize) ∧
    ((emailOptimizer sortReverseBySize scenarioFiles).flatten.Perm scenarioFiles ∧
      (scenarioFiles.Nodup →
        (emailOptimizer sortReverseBySize scenarioFiles).flatten.Nodup)) :=
  ⟨sortReverseBySize_sorts, by decide, by decide,
    emailOptimizer_no_loss_small_batch sortReverseBySize sortReverseBySize_sorts
      scenarioFiles (by decide) (by decide)⟩

/-- With eleven files of 4 MiB the ten bins hold one file each and the
eleventh file is in no bin, although it is smaller than `MaxEmailSize`. -/
theorem emailOptimizer_eleven_files :
    (emailOptimizer sortReverseBySize elevenFiles).flatten.length = 10 ∧
    elevenFiles.length = 11 ∧
    ∀ f ∈ elevenFiles, 0 ≤ f.FileSize ∧ f.FileSize < MaxEmailSize := by
  decide

/-! ## The packing scenario -/

theorem sorted_sizes_unique (sorted : List FileToSend) (sizes : List Int)
    (hsorted : sorted.Pairwise (fun a b => ¬ a.FileSize < b.FileSize))
    (hperm : (sorted.map (fun f => f.FileSize)).Perm sizes)
    (hsizes : sizes.Pairwise (fun a b => b ≤ a)) :
    sorted.map (fun f => f.FileSize) = sizes := by
  have h1 : (sorted.map (fun f => f.FileSize)).Pairwise (fun a b => b ≤ a) := by
    rw [List.pairwise_map]
    exact List.Pairwise.imp (fun h => not_lt.mp h) hsorted
  haveI : IsAntisymm Int (fun a b => b ≤ a) := ⟨fun a b hab hba => le_antisymm hba hab⟩
  exact List.eq_of_perm_of_sorted hperm h1 hsizes

/-- C8 (packing scenario): `MaxEmailSize` is exactly 6 MiB, 6291456 bytes, and
for five files of sizes 4, 4, 3, 3 and 2 MiB, in that order, and every outcome
of the library sort, `emailOptimizer` returns the bins of sizes {4 MiB},
{4 MiB}, {3 MiB, 2 MiB} in that order, {3 MiB}, followed by six bins without
files. -/
theorem emailOptimizer_packing_scenario (sortFn : List FileToSend → List FileToSend)
    (hsort : SortsReverseBySize sortFn) (files : List FileToSend)
    (hsizes : files.map (fun f => f.FileSize) = [4 * MiB, 4 * MiB, 3 * MiB, 3 * MiB, 2 * MiB]) :
    MaxEmailSize = 6 * MiB ∧ MaxEmailSize = 6291456 ∧
    (emailOptimizer sortFn files).map (fun bin => bin.map (fun f => f.FileSize)) =
      [[4 * MiB], [4 * MiB], [3 * MiB, 2 * MiB], [3 * MiB], [], [], [], [], [], []] := by
  refine ⟨by decide, by decide, ?_⟩
  have hp : ((sortFn files).map (fun f => f.FileSize)).Perm
      [4 * MiB, 4 * MiB, 3 * MiB, 3 * MiB, 2 * MiB] := by
    rw [← hsizes]
    exact (hsort.perm files).map _
  have hs := sorted_sizes_unique (sortFn files) _ (hsort.sorted files) hp (by decide)
  unfold emailOptimizer
  generalize sortFn files = sorted at hs
  rcases sorted with _ | ⟨a, _ | ⟨b, _ | ⟨c, _ | ⟨d, _ | ⟨e, _ | ⟨g, r⟩⟩⟩⟩⟩⟩
  all_goals first | (exfalso; simp at hs; done) | skip
  · simp only [List.map_cons, List.map_nil, List.cons.injEq, and_true] at hs
    obtain ⟨ha, hb, hc, hd, he⟩ := hs
    have e1 : add64 0 (4 * MiB) = 4 * MiB := by decide
    have e2 : add64 0 (3 * MiB) = 3 * MiB := by decide
    have e3 : add64 0 (2 * MiB) = 2 * MiB := by decide
    have e4 : add64 (4 * MiB) (4 * MiB) = 8 * MiB := by decide
    have e5 : add64 (4 * MiB) (3 * MiB) = 7 * MiB := by decide
    have e6 : add64 (4 * MiB) (2 * MiB) = 6 * MiB := by decide
    have e7 : add64 (3 * MiB) (3 * MiB) = 6 * MiB := by decide
    have e8 : add64 (3 * MiB) (2 * MiB) = 5 * MiB := by decide
    have m1 : ¬ (4 * MiB > MaxEmailSize) := by decide
    have m2 : ¬ (3 * MiB > MaxEmailSize) := by decide
    have m3 : ¬ (2 * MiB > MaxEmailSize) := by decide
    have c1 : (4 * MiB < MaxEmailSize) := by decide
    have c2 : (3 * MiB < MaxEmailSize) := by decide
    have c3 : (2 * MiB < MaxEmailSize) := by decide
    have c4 : ¬ (8 * MiB < MaxEmailSize) := by decide
    have c5 : ¬ (7 * MiB < MaxEmailSize) := by decide
    have c6 : ¬ (6 * MiB < MaxEmailSize) := by decide
    have c8 : (5 * MiB < MaxEmailSize) := by decide
    simp [packLoop, packStep, placeFile, emailSize, emptyEmails, List.replicate,
      ha, hb, hc, hd, he, e1, e2, e3, e4, e5, e6, e7, e8, m1, m2, m3, c1, c2, c3, c4, c5, c6, c8]

theorem emailOptimizer_packing_scenario_witness :
    SortsReverseBySize sortReverseBySize ∧
    scenarioFiles.map (fun f => f.FileSize) = [4 * MiB, 4 * MiB, 3 * MiB, 3 * MiB, 2 * MiB] ∧
    (MaxEmailSize = 6 * MiB ∧ MaxEmailSize = 6291456 ∧
      (emailOptimizer sortReverseBySize scenarioFiles).map
          (fun bin => bin.map (fun f => f.FileSize)) =
        [[4 * MiB], [4 * MiB], [3 * MiB, 2 * MiB], [3 * MiB], [], [], [], [], [], []]) :=
  ⟨sortReverseBySize_sorts, by decide,
    emailOptimizer_packing_scenario sortReverseBySize sortReverseBySize_sorts scenarioFiles
      (by decide)⟩

/-! ## The bins with files come first -/

theorem placeFile_empty_tail (file : FileToSend) (bins : List (List FileToSend))
    (h : bins.Pairwise (fun earlier later => earlier = [] → later = [])) :
    (placeFile file bins).Pairwise (fun earlier later => earlier = [] → later = []) := by
  induction bins with
  | nil => simp [placeFile]
  | cons bin rest ih =>
    obtain ⟨hhead, hrest⟩ := List.pairwise_cons.mp h
    unfold placeFile
    by_cases hfit : add64 (emailSize bin) file.FileSize < MaxEmailSize
    · rw [if_pos hfit]
      refine List.pairwise_cons.mpr ⟨?_, hrest⟩
      intro later _ hnil
      simp at hnil
    · rw [if_neg hfit]
      refine List.pairwise_cons.mpr ⟨?_, ih hrest⟩
      intro later hlater hnil
      -- an empty bin that refuses the file is followed by empty bins, which refuse it too
      have hall : ∀ b ∈ rest, b = [] := fun b hb => hhead b hb hnil
      have hnofit : fitsSomeBin rest file = false := by
        unfold fitsSomeBin
        rw [List.any_eq_false]
        intro b hb
        rw [hall b hb, ← hnil]
        simpa using hfit
      rw [placeFile_of_not_fits file rest hnofit] at hlater
      exact hall later hlater

theorem packLoop_empty_tail (files : List FileToSend) (bins : List (List FileToSend))
    (h : bins.Pairwise (fun earlier later => earlier = [] → later = [])) :
    (packLoop files bins).Pairwise (fun earlier later => earlier = [] → later = []) := by
  induction files generalizing bins with
  | nil => exact h
  | cons file rest ih =>
    apply ih (packStep bins file)
    unfold packStep
    split
    · exact h
    · exact placeFile_empty_tail file bins h

theorem emailOptimizer_empty_tail (sortFn : List FileToSend → List FileToSend)
    (files : List FileToSend) :
    (emailOptimizer sortFn files).Pairwise (fun earlier later => earlier = [] → later = []) := by
  apply packLoop_empty_tail
  decide

theorem filter_eq_takeWhile_of_empty_tail (bins : List (List FileToSend))
    (h : bins.Pairwise (fun earlier later => earlier = [] → later = [])) :
    bins.filter (fun bin => decide (bin.length > 0)) =
      bins.takeWhile (fun bin => decide (bin.length > 0)) := by
  induction bins with
  | nil => rfl
  | cons bin rest ih =>
    obtain ⟨hhead, hrest⟩ := List.pairwise_cons.mp h
    by_cases hlen : bin.length > 0
    · simp [List.filter_cons, List.takeWhile_cons, hlen, ih hrest]
    · have hnil : bin = [] := List.length_eq_zero.mp (by omega)
      have hall : ∀ b ∈ rest, b = [] := fun b hb => hhead b hb hnil
      have hfilter : rest.filter (fun bin => decide (bin.length > 0)) = [] := by
        rw [List.filter_eq_nil_iff]
        intro b hb
        simp [hall b hb]
      simp [List.filter_cons, List.takeWhile_cons, hlen, hfilter]

theorem sendLoopSkippingEmpty_of_all_empty (w : World)
    (objectKey bucketName destination : String) (bins : List (List FileToSend))
    (log : List Effect) (h : ∀ b ∈ bins, b = []) :
    sendLoopSkippingEmpty w objectKey bucketName destination bins log = .continued log () := by
  induction bins with
  | nil => rfl
  | cons bin rest ih =>
    have hnil : bin = [] := h bin (List.mem_cons_self _ _)
    subst hnil
    unfold sendLoopSkippingEmpty
    simp only [List.length_nil, gt_iff_lt, lt_self_iff_false, decide_False, Bool.not_false,
      if_true]
    exact ih (fun b hb => h b (List.mem_cons_of_mem _ hb))

theorem sendLoop_eq_skippingEmpty (w : World) (objectKey bucketName destination : String)
    (bins : List (List FileToSend))
    (h : bins.Pairwise (fun earlier later => earlier = [] → later = []))
    (log : List Effect) :
    sendLoop w objectKey bucketName destination bins log =
      sendLoopSkippingEmpty w objectKey bucketName destination bins log := by
  induction bins generalizing log with
  | nil => rfl
  | cons bin rest ih =>
    obtain ⟨hhead, hrest⟩ := List.pairwise_cons.mp h
    unfold sendLoop sendLoopSkippingEmpty
    by_cases hlen : bin.length > 0
    · simp only [hlen, decide_True, Bool.not_true, Bool.false_eq_true, if_false]
      cases w.sendRawEmail log [destination] Sender (rawEmail destination bin) with
      | some err => rfl
      | none => exact ih hrest _
    · have hnil : bin = [] := List.length_eq_zero.mp (by omega)
      have hall : ∀ b ∈ rest, b = [] := fun b hb => hhead b hb hnil
      simp only [hlen, decide_False, Bool.not_false, if_true]
      exact (sendLoopSkippingEmpty_of_all_empty w objectKey bucketName destination rest log
        hall).symm

theorem destinationLoop_eq_skippingEmpty (w : World) (objectKey bucketName : String)
    (bins : List (List FileToSend))
    (h : bins.Pairwise (fun earlier later => earlier = [] → later = []))
    (destinations : List String) (log : List Effect) :
    destinationLoop w objectKey bucketName bins destinations log =
      destinationLoopSkippingEmpty w objectKey bucketName bins destinations log := by
  induction destinations generalizing log with
  | nil => rfl
  | cons destination rest ih =>
    unfold destinationLoop destinationLoopSkippingEmpty
    rw [sendLoop_eq_skippingEmpty w objectKey bucketName destination bins h log]
    cases sendLoopSkippingEmpty w objectKey bucketName destination bins log with
    | returned log1 err => rfl
    | continued log1 u => exact ih log1

theorem sendLoopSkippingEmpty_of_sends_ok (w : World)
    (hok : ∀ log destinations source message,
      w.sendRawEmail log destinations source message = none)
    (objectKey bucketName destination : String) (bins : List (List FileToSend))
    (log : List Effect) :
    sendLoopSkippingEmpty w objectKey bucketName destination bins log =
      .continued
        (log ++ (bins.filter (fun bin => decide (bin.length > 0))).map
          (fun bin => Effect.SendRawEmail [destination] Sender (rawEmail destination bin))) () := by
  induction bins generalizing log with
  | nil => simp [sendLoopSkippingEmpty]
  | cons bin rest ih =>
    unfold sendLoopSkippingEmpty
    by_cases hlen : bin.length > 0
    · simp only [hlen, decide_True, Bool.not_true, Bool.false_eq_true, if_false, hok]
      rw [ih]
      simp [List.filter_cons, hlen]
    · simp only [hlen, decide_False, Bool.not_false, if_true]
      rw [ih]
      simp [List.filter_cons, hlen]

theorem destinationLoopSkippingEmpty_of_sends_ok (w : World)
    (hok : ∀ log destinations source message,
      w.sendRawEmail log destinations source message = none)
    (objectKey bucketName : String) (bins : List (List FileToSend))
    (destinations : List String) (log : List Effect) :
    destinationLoopSkippingEmpty w objectKey bucketName bins destinations log =
      .continued
        (log ++ (destinations.map (fun destination =>
          (bins.filter (fun bin => decide (bin.length > 0))).map
            (fun bin =>
              Effect.SendRawEmail [destination] Sender (rawEmail destination bin)))).flatten)
        () := by
  induction destinations generalizing log with
  | nil => simp [destinationLoopSkippingEmpty]
  | cons destination rest ih =>
    unfold destinationLoopSkippingEmpty
    rw [sendLoopSkippingEmpty_of_sends_ok w hok]
    simp only
    rw [ih]
    simp

/-- C9 (halting at the first empty bin is equivalent to skipping empty bins):
for every input list, in particular for every list whose `FileSize` values are
all non-negative, and whatever the library sort does, the bins of the output of
`emailOptimizer` that hold files form an initial segment: if bin `i` is empty,
every bin `j > i` is empty, and the bins with files are exactly the bins before
the first empty one.  Hence the delivery loop of the handler, which breaks at
the first empty bin, ends in the same state (same log of effects, in
particular the same messages in the same order; same error returned) as the
loop that visits all the bins and skips the empty ones, for every world, every
list of destinations and every log before it; and when no send fails, the
messages it submits are, destination after destination, one for each bin with
files, in index order. -/
theorem delivery_break_eq_skip (sortFn : List FileToSend → List FileToSend)
    (files : List FileToSend) :
    (∀ i j : Nat, i < j → j < 10 → (emailOptimizer sortFn files)[i]? = some [] →
      (emailOptimizer sortFn files)[j]? = some []) ∧
    (emailOptimizer sortFn files).filter (fun bin => decide (bin.length > 0)) =
      (emailOptimizer sortFn files).takeWhile (fun bin => decide (bin.length > 0)) ∧
    (∀ (w : World) (objectKey bucketName : String) (destinations : List String)
      (log : List Effect),
      destinationLoop w objectKey bucketName (emailOptimizer sortFn files) destinations log =
        destinationLoopSkippingEmpty w objectKey bucketName (emailOptimizer sortFn files)
          destinations log) ∧
    ∀ (w : World),
      (∀ log destinations source message,
        w.sendRawEmail log destinations source message = none) →
      ∀ (objectKey bucketName : String) (destinations : List String) (log : List Effect),
      destinationLoop w objectKey bucketName (emailOptimizer sortFn files) destinations log =
        .continued
          (log ++ (destinations.map (fun destination =>
            ((emailOptimizer sortFn files).filter (fun bin => decide (bin.length > 0))).map
              (fun bin =>
                Effect.SendRawEmail [destination] Sender
                  (rawEmail destination bin)))).flatten) () := by
  have htail := emailOptimizer_empty_tail sortFn files
  have hlen := emailOptimizer_length sortFn files
  refine ⟨?_, filter_eq_takeWhile_of_empty_tail _ htail, ?_, ?_⟩
  · intro i j hij hj hi
    have hjlen : j < (emailOptimizer sortFn files).length := by omega
    have hilen : i < (emailOptimizer sortFn files).length := by omega
    rw [List.getElem?_eq_getElem hilen] at hi
    rw [List.getElem?_eq_getElem hjlen]
    have hrel := List.pairwise_iff_getElem.mp htail i j hilen hjlen hij
    exact congrArg some (hrel (Option.some.inj hi))
  · intro w objectKey bucketName destinations log
    exact destinationLoop_eq_skippingEmpty w objectKey bucketName _ htail destinations log
  · intro w hok objectKey bucketName destinations log
    rw [destinationLoop_eq_skippingEmpty w objectKey bucketName _ htail destinations log]
    exact destinationLoopSkippingEmpty_of_sends_ok w hok objectKey bucketName _ destinations log

theorem delivery_break_eq_skip_witness :
    ((emailOptimizer sortReverseBySize scenarioFiles).map List.length =
      [1, 1, 2, 1, 0, 0, 0, 0, 0, 0]) ∧
    destinationLoop sampleWorld "mail/1" "inbox-bucket"
        (emailOptimizer sortReverseBySize scenarioFiles) ["alice@kindle.com"] [] =
      destinationLoopSkippingEmpty sampleWorld "mail/1" "inbox-bucket"
        (emailOptimizer sortReverseBySize scenarioFiles) ["alice@kindle.com"] [] :=
  ⟨by decide,
    (delivery_break_eq_skip sortReverseBySize scenarioFiles).2.2.1 sampleWorld "mail/1"
      "inbox-bucket" ["alice@kindle.com"] []⟩

/-! ## The handler: sender check and missing policy record -/

theorem contains_eq_true_iff (s : List String) (str : String) :
    contains s str = true ↔ str ∈ s := by
  induction s with
  | nil => simp [contains]
  | cons v rest ih =>
    unfold contains
    by_cases h : v = str
    · simp [h]
    · have h2 : ¬ str = v := fun e => h e.symm
      simp [h, h2, ih]

theorem contains_eq_false_iff (s : List String) (str : String) :
    contains s str = false ↔ str ∉ s := by
  rw [← contains_eq_true_iff]
  simp

theorem handleRecord_of_no_item (w : World) (record : Record) (log : List Effect)
    (err : Option Error)
    (hget : w.getItem log TableName (intendedDestination record.destinations) = (none, err)) :
    handleRecord w record log =
      .returned
        (log ++ [Effect.GetItem TableName (intendedDestination record.destinations),
          Effect.DeleteObject record.objectKey record.bucketName]) err := by
  unfold handleRecord
  simp [hget, handleError]

theorem handleRecord_of_unapproved (w : World) (record : Record) (log : List Effect)
    (recipientItem : List (String × String)) (item : RecipientResult)
    (hget : (w.getItem log TableName (intendedDestination record.destinations)).1 =
      some recipientItem)
    (hitem : w.unmarshalMap recipientItem = .ok item)
    (hsender : record.source ∉ item.ApprovedEmails) :
    handleRecord w record log =
      .returned
        (log ++ [Effect.GetItem TableName (intendedDestination record.destinations),
          Effect.DeleteObject record.objectKey record.bucketName])
        (some ⟨"unapproved email"⟩) := by
  have hc : contains item.ApprovedEmails record.source = false :=
    (contains_eq_false_iff _ _).mpr hsender
  rcases hw : w.getItem log TableName (intendedDestination record.destinations) with
    ⟨found, err⟩
  rw [hw] at hget
  simp only at hget
  subst hget
  unfold handleRecord
  simp [hw, hitem, hc, handleError]

/-- C2 (authorisation): for every world, every record whose policy record is
found and unmarshalled and whose sender (`mail.source`) is not a member of its
`ApprovedEmails`, every list of records after it and every log before it,
`handleRequest` returns the non-nil error "unapproved email", and the effects it
adds to the log are the lookup and one delete: no `SendRawEmail` is among them
and no run of the conversion tool. -/
theorem handleRequest_unapproved_sender (w : World) (record : Record) (rest : List Record)
    (log : List Effect) (recipientItem : List (String × String)) (item : RecipientResult)
    (hget : (w.getItem log TableName (intendedDestination record.destinations)).1 =
      some recipientItem)
    (hitem : w.unmarshalMap recipientItem = .ok item)
    (hsender : record.source ∉ item.ApprovedEmails) :
    ∃ added : List Effect,
      handleRequest w (record :: rest) log = (log ++ added, some ⟨"unapproved email"⟩) ∧
      (handleRequest w (record :: rest) log).2 ≠ none ∧
      (∀ e ∈ added, e.isSend = false ∧ e.isConversion = false) ∧
      added = [Effect.GetItem TableName (intendedDestination record.destinations),
        Effect.DeleteObject record.objectKey record.bucketName] := by
  have h := handleRecord_of_unapproved w record log recipientItem item hget hitem hsender
  have hreq : handleRequest w (record :: rest) log =
      (log ++ [Effect.GetItem TableName (intendedDestination record.destinations),
          Effect.DeleteObject record.objectKey record.bucketName],
        some ⟨"unapproved email"⟩) := by
    unfold handleRequest
    rw [h]
  refine ⟨_, hreq, ?_, ?_, rfl⟩
  · rw [hreq]
    simp
  · intro e he
    simp only [List.mem_cons, List.mem_singleton, List.not_mem_nil, or_false] at he
    rcases he with rfl | rfl <;> exact ⟨rfl, rfl⟩

theorem handleRequest_unapproved_sender_witness :
    (sampleWorld.getItem [] TableName
        (intendedDestination unapprovedRecord.destinations)).1 =
      some [("RecipientEmail", "box@kindle.vangel.io")] ∧
    sampleWorld.unmarshalMap [("RecipientEmail", "box@kindle.vangel.io")] =
      .ok ⟨"box@kindle.vangel.io", ["alice@example.com"], ["alice@kindle.com"]⟩ ∧
    unapprovedRecord.source ∉ ["alice@example.com"] ∧
    ∃ added : List Effect,
      handleRequest sampleWorld (unapprovedRecord :: [approvedRecord]) [] =
        ([] ++ added, some ⟨"unapproved email"⟩) ∧
      (handleRequest sampleWorld (unapprovedRecord :: [approvedRecord]) []).2 ≠ none ∧
      (∀ e ∈ added, e.isSend = false ∧ e.isConversion = false) ∧
      added = [Effect.GetItem TableName (intendedDestination unapprovedRecord.destinations),
        Effect.DeleteObject unapprovedRecord.objectKey unapprovedRecord.bucketName] :=
  ⟨by decide, rfl, by decide,
    handleRequest_unapproved_sender sampleWorld unapprovedRecord [approvedRecord] []
      [("RecipientEmail", "box@kindle.vangel.io")]
      ⟨"box@kindle.vangel.io", ["alice@example.com"], ["alice@kindle.com"]⟩
      (by decide) rfl (by decide)⟩

/-- C5 (unknown recipient), evaluated: the mailbox `nobody@kindle.vangel.io` has
no policy record and the lookup itself completes without error (no item, nil
error); `handleRequest` deletes and returns nil, whereas the claim has it return
a non-nil error. -/
theorem handleRequest_unknown_recipient_returns_nil :
    sampleWorld.getItem [] TableName
        (intendedDestination unknownRecipientRecord.destinations) = (none, none) ∧
    handleRequest sampleWorld [unknownRecipientRecord] [] =
      ([Effect.GetItem "KindleConverter" "nobody@kindle.vangel.io",
        Effect.DeleteObject "mail/2" "inbox-bucket"], none) ∧
    (handleRequest sampleWorld [unknownRecipientRecord] []).2 = none := by
  decide

/-! ## The handler: choice of the recipient -/

theorem foldl_pick_of_none (p : String → Bool) (l : List String) (init : String)
    (h : ∀ d ∈ l, p d = false) :
    l.foldl (fun intended destination => if p destination then destination else intended)
      init = init := by
  induction l generalizing init with
  | nil => rfl
  | cons a t ih =>
    have ha : p a = false := h a (List.mem_cons_self _ _)
    simp only [List.foldl_cons, ha, Bool.false_eq_true, if_false]
    exact ih init (fun d hd => h d (List.mem_cons_of_mem _ hd))

theorem foldl_pick_is_last (p : String → Bool) (l : List String) (init : String)
    (h : ∃ d ∈ l, p d = true) :
    ∃ before after,
      l = before ++
        l.foldl (fun intended destination => if p destination then destination else intended)
          init :: after ∧
      p (l.foldl (fun intended destination => if p destination then destination else intended)
          init) = true ∧
      ∀ d ∈ after, p d = false := by
  induction l generalizing init with
  | nil => simp at h
  | cons a t ih =>
    by_cases ht : ∃ d ∈ t, p d = true
    · obtain ⟨before, after, hsplit, hp, hafter⟩ := ih (if p a then a else init) ht
      refine ⟨a :: before, after, ?_, hp, hafter⟩
      simp only [List.foldl_cons, List.cons_append]
      exact congrArg (List.cons a) hsplit
    · have hnone : ∀ d ∈ t, p d = false := by
        intro d hd
        by_contra hne
        exact ht ⟨d, hd, by simpa using hne⟩
      have ha : p a = true := by
        obtain ⟨d, hd, hpd⟩ := h
        rcases List.mem_cons.mp hd with rfl | hmem
        · exact hpd
        · rw [hnone d hmem] at hpd; exact absurd hpd (by decide)
      have hfold : (a :: t).foldl
          (fun intended destination => if p destination then destination else intended)
          init = a := by
        simp only [List.foldl_cons, ha, if_true]
        exact foldl_pick_of_none p t a hnone
      rw [hfold]
      exact ⟨[], t, rfl, ha, hnone⟩

/-! ## The handler: deletes in the object store -/

theorem oneDelete_extend {α : Type} {log log1 added : List Effect} {expected : Effect}
    {flow : Flow α} (hlog : log1 = log ++ added) (hadded : added.filter Effect.isDelete = [])
    (h : OneDeleteOnReturn log1 expected flow) : OneDeleteOnReturn log expected flow := by
  subst hlog
  cases flow with
  | returned log2 err =>
    obtain ⟨added2, h2, hf⟩ := h
    exact ⟨added ++ added2, by rw [h2, List.append_assoc],
      by rw [List.filter_append, hadded, hf, List.nil_append]⟩
  | continued log2 v =>
    obtain ⟨added2, h2, hf⟩ := h
    exact ⟨added ++ added2, by rw [h2, List.append_assoc],
      by rw [List.filter_append, hadded, hf, List.nil_append]⟩

theorem attachmentStep_deletes (w : World) (objectKey bucketName : String) (i : Nat)
    (a : Attachment) (filesToSend : List FileToSend) (log : List Effect) :
    OneDeleteOnReturn log (Effect.DeleteObject objectKey bucketName)
      (attachmentStep w objectKey bucketName i a filesToSend log) := by
  unfold attachmentStep
  simp only [handleError, List.append_assoc, List.singleton_append, List.cons_append,
    List.nil_append]
  repeat' split
  all_goals exact ⟨_, rfl, rfl⟩

theorem attachmentLoop_deletes (w : World) (objectKey bucketName : String) (i : Nat)
    (attachments : List Attachment) (filesToSend : List FileToSend) (log : List Effect) :
    OneDeleteOnReturn log (Effect.DeleteObject objectKey bucketName)
      (attachmentLoop w objectKey bucketName i attachments filesToSend log) := by
  induction attachments generalizing i filesToSend log with
  | nil => exact ⟨[], (List.append_nil log).symm, rfl⟩
  | cons a rest ih =>
    unfold attachmentLoop
    have hs := attachmentStep_deletes w objectKey bucketName i a filesToSend log
    cases hstep : attachmentStep w objectKey bucketName i a filesToSend log with
    | returned log1 err =>
      rw [hstep] at hs
      exact hs
    | continued log1 files1 =>
      rw [hstep] at hs
      obtain ⟨added, hlog, hadded⟩ := hs
      exact oneDelete_extend hlog hadded (ih (i + 1) files1 log1)

theorem sendLoop_deletes (w : World) (objectKey bucketName destination : String)
    (bins : List (List FileToSend)) (log : List Effect) :
    OneDeleteOnReturn log (Effect.DeleteObject objectKey bucketName)
      (sendLoop w objectKey bucketName destination bins log) := by
  induction bins generalizing log with
  | nil => exact ⟨[], (List.append_nil log).symm, rfl⟩
  | cons bin rest ih =>
    unfold sendLoop
    split
    · exact ⟨[], (List.append_nil log).symm, rfl⟩
    · simp only [handleError, List.append_assoc, List.singleton_append]
      split
      · exact ⟨_, rfl, rfl⟩
      · exact oneDelete_extend
          (rfl : log ++ [Effect.SendRawEmail [destination] Sender (rawEmail destination bin)] =
            log ++ [Effect.SendRawEmail [destination] Sender (rawEmail destination bin)])
          rfl (ih _)

theorem destinationLoop_deletes (w : World) (objectKey bucketName : String)
    (bins : List (List FileToSend)) (destinations : List String) (log : List Effect) :
    OneDeleteOnReturn log (Effect.DeleteObject objectKey bucketName)
      (destinationLoop w objectKey bucketName bins destinations log) := by
  induction destinations generalizing log with
  | nil => exact ⟨[], (List.append_nil log).symm, rfl⟩
  | cons destination rest ih =>
    unfold destinationLoop
    have hs := sendLoop_deletes w objectKey bucketName destination bins log
    cases hsend : sendLoop w objectKey bucketName destination bins log with
    | returned log1 err =>
      rw [hsend] at hs
      exact hs
    | continued log1 u =>
      rw [hsend] at hs
      obtain ⟨added, hlog, hadded⟩ := hs
      exact oneDelete_extend hlog hadded (ih log1)

/-- Every run of the body of the record loop issues exactly one delete, after
the lookup with which it starts.  When the body runs to its end the delete has
`Bucket = bucketName` and `Key = objectKey`; when the handler returns from
inside the body, through `handleError`, the delete has `Bucket = objectKey` and
`Key = bucketName`. -/
theorem handleRecord_deletes (w : World) (record : Record) (log : List Effect) :
    RecordTrace log (Effect.GetItem TableName (intendedDestination record.destinations))
      (Effect.DeleteObject record.objectKey record.bucketName)
      (Effect.DeleteObject record.bucketName record.objectKey)
      (handleRecord w record log) := by
  unfold handleRecord
  simp only [handleError, List.append_assoc, List.singleton_append]
  split
  · exact ⟨_, rfl, rfl⟩
  · split
    · exact ⟨_, rfl, rfl⟩
    · rename_i item _
      split
      · exact ⟨_, rfl, rfl⟩
      · split
        · exact ⟨_, rfl, rfl⟩
        · split
          · exact ⟨_, rfl, rfl⟩
          · rename_i attachments _
            have ha := attachmentLoop_deletes w record.objectKey record.bucketName 0
              attachments []
              (log ++ [Effect.GetItem TableName (intendedDestination record.destinations),
                Effect.Download record.bucketName record.objectKey])
            split
            · rename_i log3 err hloop
              rw [hloop] at ha
              obtain ⟨added, hlog, hadded⟩ := ha
              refine ⟨Effect.Download record.bucketName record.objectKey :: added, ?_, ?_⟩
              · rw [hlog]; simp
              · simpa [List.filter_cons, Effect.isDelete] using hadded
            · rename_i log3 filesToSend hloop
              rw [hloop] at ha
              obtain ⟨added, hlog, hadded⟩ := ha
              have hd := destinationLoop_deletes w record.objectKey record.bucketName
                (emailOptimizer w.sortFn filesToSend) item.DestinationEmails log3
              split
              · rename_i log4 err hdest
                rw [hdest] at hd
                obtain ⟨added2, hlog2, hadded2⟩ := hd
                refine ⟨Effect.Download record.bucketName record.objectKey ::
                  (added ++ added2), ?_, ?_⟩
                · rw [hlog2, hlog]; simp
                · simp [List.filter_cons, Effect.isDelete, List.filter_append, hadded, hadded2]
              · rename_i log4 u hdest
                rw [hdest] at hd
                obtain ⟨added2, hlog2, hadded2⟩ := hd
                refine ⟨Effect.Download record.bucketName record.objectKey ::
                  (added ++ added2 ++
                    [Effect.DeleteObject record.bucketName record.objectKey]), ?_, ?_⟩
                · rw [hlog2, hlog]; simp
                · simp [List.filter_cons, Effect.isDelete, List.filter_append, hadded, hadded2]

/-- C4 (recipient selection), as amended: for every destination list with at
least one address that ends with `BaseReceiveDomain`, the address used as the
key of the policy store (`intendedDestination`) is the LAST such address of the
list: it ends with `BaseReceiveDomain` and no address after it does.  It is the
key of the `GetItem` call, which is the first effect of the handler. -/
theorem intendedDestination_is_last_match (destinations : List String)
    (h : ∃ d ∈ destinations, HasSuffix d BaseReceiveDomain = true) :
    (∃ before after,
      destinations = before ++ intendedDestination destinations :: after ∧
      HasSuffix (intendedDestination destinations) BaseReceiveDomain = true ∧
      ∀ d ∈ after, HasSuffix d BaseReceiveDomain = false) ∧
    ∀ (w : World) (record : Record) (log : List Effect),
      record.destinations = destinations →
      ∃ later, (handleRecord w record log).log =
        log ++ Effect.GetItem TableName (intendedDestination destinations) :: later := by
  refine ⟨foldl_pick_is_last (fun d => HasSuffix d BaseReceiveDomain) destinations "" h, ?_⟩
  intro w record log hrec
  subst hrec
  have hd := handleRecord_deletes w record log
  cases hflow : handleRecord w record log with
  | returned log1 err =>
    rw [hflow] at hd
    obtain ⟨later, hlog, _⟩ := hd
    exact ⟨later, hlog⟩
  | continued log1 u =>
    rw [hflow] at hd
    obtain ⟨later, hlog, _⟩ := hd
    exact ⟨later, hlog⟩

theorem intendedDestination_is_last_match_witness :
    (∃ d ∈ twoLocalDestinations, HasSuffix d BaseReceiveDomain = true) ∧
    intendedDestination twoLocalDestinations = "second@kindle.vangel.io" ∧
    ((∃ before after,
      twoLocalDestinations = before ++ intendedDestination twoLocalDestinations :: after ∧
      HasSuffix (intendedDestination twoLocalDestinations) BaseReceiveDomain = true ∧
      ∀ d ∈ after, HasSuffix d BaseReceiveDomain = false) ∧
    ∀ (w : World) (record : Record) (log : List Effect),
      record.destinations = twoLocalDestinations →
      ∃ later, (handleRecord w record log).log =
        log ++ Effect.GetItem TableName (intendedDestination twoLocalDestinations) :: later) :=
  ⟨by decide, by decide, intendedDestination_is_last_match twoLocalDestinations (by decide)⟩

/-- C4 (recipient selection), refuted as stated: in the list
`first@kindle.vangel.io`, `other@example.com`, `second@kindle.vangel.io` the
first address that ends with `BaseReceiveDomain` is `first@kindle.vangel.io`,
while `intendedDestination`, and with it the key of the `GetItem` call of the
handler, is `second@kindle.vangel.io`. -/
theorem intendedDestination_not_first_match :
    twoLocalDestinations.find? (fun d => HasSuffix d BaseReceiveDomain) =
      some "first@kindle.vangel.io" ∧
    intendedDestination twoLocalDestinations = "second@kindle.vangel.io" ∧
    intendedDestination twoLocalDestinations ≠ "first@kindle.vangel.io" ∧
    (handleRequest sampleWorld [twoLocalRecord] []).1.head? =
      some (Effect.GetItem "KindleConverter" "second@kindle.vangel.io") := by
  decide

/-- C1 (cleanup), evaluated: for the record with `bucketName = "inbox-bucket"`
and `objectKey = "mail/1"` whose sender is not approved, `handleRequest` issues
its one delete with `Bucket = "mail/1"` and `Key = "inbox-bucket"`, whereas the
claim has `Bucket = bucketName` and `Key = objectKey`; the same record from an
approved sender, handled to the end, gets the delete of the claim. -/
theorem handleRequest_error_delete_swapped :
    unapprovedRecord.bucketName = "inbox-bucket" ∧ unapprovedRecord.objectKey = "mail/1" ∧
    handleRequest sampleWorld [unapprovedRecord] [] =
      ([Effect.GetItem "KindleConverter" "box@kindle.vangel.io",
        Effect.DeleteObject "mail/1" "inbox-bucket"], some ⟨"unapproved email"⟩) ∧
    (handleRequest sampleWorld [unapprovedRecord] []).1.filter Effect.isDelete ≠
      [Effect.DeleteObject unapprovedRecord.bucketName unapprovedRecord.objectKey] ∧
    (handleRequest sampleWorld [approvedRecord] []).1.filter Effect.isDelete =
      [Effect.DeleteObject approvedRecord.bucketName approvedRecord.objectKey] := by
  decide

/-! ## The classification of the attachments -/

theorem extScan_of_no_dot (l acc : List Char) (h : '.' ∉ l) : extScan l acc = [] := by
  induction l generalizing acc with
  | nil => rfl
  | cons c rest ih =>
    have hc : c ≠ '.' := fun e => h (by rw [e]; exact List.mem_cons_self _ _)
    have hrest : '.' ∉ rest := fun e => h (List.mem_cons_of_mem _ e)
    unfold extScan
    by_cases hs : c = '/'
    · rw [if_pos hs]
    · rw [if_neg hs, if_neg hc]
      exact ih (c :: acc) hrest

theorem Ext_of_no_dot (filename : String) (h : '.' ∉ filename.data) : Ext filename = "" := by
  unfold Ext
  rw [extScan_of_no_dot _ _ (by simpa using h)]

theorem classify_dropped_of_empty (toLower : String → String) (filename : String)
    (hlower : toLower "" = "") (hext : Ext filename = "") :
    classify toLower filename = Classification.Dropped := by
  unfold classify
  rw [hext, hlower]
  decide

/-- C7 (classifier): for every attachment file name, the treatment the handler
applies is decided by `strings.ToLower(filepath.Ext(name))` alone.  The file is
accepted iff that string is in the list of the supported types, and then, when
the file is written, it is recorded with its local path, its original name and
its size, without a run of the conversion tool; otherwise it is convertible iff
the string is in the list of the convertible types, and then the conversion
tool is run; otherwise it is dropped, and nothing is recorded.  Two names whose
extensions have the same lowercase form, such as two spellings of one extension
in different letter case, are treated alike, and, as `strings.ToLower` maps the
empty string to itself, a name without extension (in particular a name without
a dot) is dropped. -/
theorem classify_by_lowercased_extension (w : World) :
    (∀ filename, classify w.toLower filename = Classification.Accepted ↔
      w.toLower (Ext filename) ∈ getAlreadySupportedFileTypes) ∧
    (∀ filename, classify w.toLower filename = Classification.Convertible ↔
      w.toLower (Ext filename) ∉ getAlreadySupportedFileTypes ∧
      w.toLower (Ext filename) ∈ getSupportedConversionFileTypes) ∧
    (∀ filename, classify w.toLower filename = Classification.Dropped ↔
      w.toLower (Ext filename) ∉ getAlreadySupportedFileTypes ∧
      w.toLower (Ext filename) ∉ getSupportedConversionFileTypes) ∧
    (∀ f g, w.toLower (Ext f) = w.toLower (Ext g) →
      classify w.toLower f = classify w.toLower g) ∧
    (w.toLower "" = "" → ∀ filename, Ext filename = "" →
      classify w.toLower filename = Classification.Dropped) ∧
    (w.toLower "" = "" → ∀ filename, '.' ∉ filename.data →
      classify w.toLower filename = Classification.Dropped) ∧
    (∀ (objectKey bucketName : String) (i : Nat) (a : Attachment)
      (filesToSend : List FileToSend) (log : List Effect) (fileSize : Int),
      w.create log (Folder ++ "/" ++ "book" ++ toString i ++ Ext a.Filename) = none →
      w.copy (log ++ [Effect.Create (Folder ++ "/" ++ "book" ++ toString i ++ Ext a.Filename)])
        (Folder ++ "/" ++ "book" ++ toString i ++ Ext a.Filename) a = (fileSize, none) →
      (classify w.toLower a.Filename = Classification.Accepted →
        attachmentStep w objectKey bucketName i a filesToSend log =
          .continued
            (log ++ [Effect.Create (Folder ++ "/" ++ "book" ++ toString i ++ Ext a.Filename),
              Effect.Copy (Folder ++ "/" ++ "book" ++ toString i ++ Ext a.Filename) a])
            (filesToSend ++
              [⟨Folder ++ "/" ++ "book" ++ toString i ++ Ext a.Filename, a.Filename,
                fileSize⟩])) ∧
      (classify w.toLower a.Filename = Classification.Dropped →
        attachmentStep w objectKey bucketName i a filesToSend log =
          .continued
            (log ++ [Effect.Create (Folder ++ "/" ++ "book" ++ toString i ++ Ext a.Filename),
              Effect.Copy (Folder ++ "/" ++ "book" ++ toString i ++ Ext a.Filename) a])
            filesToSend) ∧
      (classify w.toLower a.Filename = Classification.Convertible →
        ∃ later, (attachmentStep w objectKey bucketName i a filesToSend log).log =
          log ++ [Effect.Create (Folder ++ "/" ++ "book" ++ toString i ++ Ext a.Filename),
            Effect.Copy (Folder ++ "/" ++ "book" ++ toString i ++ Ext a.Filename) a,
            Effect.Command "ebook-convert"
              [Folder ++ "/" ++ "book" ++ toString i ++ Ext a.Filename,
                Folder ++ "/" ++ "book" ++ toString i ++ ".mobi"]] ++ later)) := by
  refine ⟨?_, ?_, ?_, ?_, ?_, ?_, ?_⟩
  · intro filename
    unfold classify
    rw [← contains_eq_true_iff]
    split
    · simp [*]
    · split <;> simp [*]
  · intro filename
    unfold classify
    rw [← contains_eq_true_iff, ← contains_eq_true_iff]
    split
    · simp [*]
    · split <;> simp_all
  · intro filename
    unfold classify
    rw [← contains_eq_true_iff, ← contains_eq_true_iff]
    split
    · simp [*]
    · split <;> simp_all
  · intro f g h
    unfold classify
    rw [h]
  · intro hlower filename hext
    exact classify_dropped_of_empty w.toLower filename hlower hext
  · intro hlower filename hdot
    exact classify_dropped_of_empty w.toLower filename hlower (Ext_of_no_dot filename hdot)
  · intro objectKey bucketName i a filesToSend log fileSize hcreate hcopy
    refine ⟨?_, ?_, ?_⟩
    · intro hclass
      unfold attachmentStep
      simp [hcreate, hcopy, hclass]
    · intro hclass
      unfold attachmentStep
      simp [hcreate, hcopy, hclass]
    · intro hclass
      unfold attachmentStep
      simp only [hcreate, hcopy, hclass, handleError]
      split
      · exact ⟨[Effect.DeleteObject objectKey bucketName], by simp [Flow.log]⟩
      · split
        · exact ⟨_, by simp [Flow.log]; rfl⟩
        · exact ⟨_, by simp [Flow.log]; rfl⟩

theorem classify_by_lowercased_extension_witness :
    classify sampleWorld.toLower "book.PDF" = Classification.Accepted ∧
    classify sampleWorld.toLower "book.pdf" = Classification.Accepted ∧
    classify sampleWorld.toLower "novel.EPub" = Classification.Convertible ∧
    classify sampleWorld.toLower "setup.exe" = Classification.Dropped ∧
    classify sampleWorld.toLower "README" = Classification.Dropped :=
  ⟨(classify_by_lowercased_extension sampleWorld).1 "book.PDF" |>.mpr (by decide),
    (classify_by_lowercased_extension sampleWorld).1 "book.pdf" |>.mpr (by decide),
    (classify_by_lowercased_extension sampleWorld).2.1 "novel.EPub" |>.mpr (by decide),
    (classify_by_lowercased_extension sampleWorld).2.2.1 "setup.exe" |>.mpr (by decide),
    (classify_by_lowercased_extension sampleWorld).2.2.2.2.2.1 (by decide) "README"
      (by decide)⟩

end KindleConverter
